import Mathlib

/-!
Shallow embedding of the xburn-dashboard indexer (TypeScript) and proofs about
its natural-language specification.

The embedding covers:
* the 80/20 burn-amount split of the `XENBurned` handlers
  (`src/backend/src/indexer/processors/eventProcessor.ts` `handleXenBurnedEvent`
  and the indexer listener / historical processor in `indexer.ts`);
* the `LockClaimed` close-out scan over same-transaction minter logs;
* the relational state (burn_events / burn_positions) and the event-handler
  operations that mutate it;
* the `EventListener.processEvents` poll-batch window and cursor logic;
* `DataValidator.detectBlockGaps`;
* `ChainManager.addChain`;
* `AnalyticsEngine.calculateAmplifierValue`.

Machine integers of the source are modelled as `Nat`/`Int` (bigint / JS number
arithmetic in the source is arbitrary precision or far below 2^53 here).
-/

namespace XBurn

/-! ### Burn-amount split (`XENBurned` handlers) -/

/-- `handleXenBurnedEvent` in `eventProcessor.ts`:
`directAmount = BigInt(event.amount) * BigInt(80) / BigInt(100)`,
`accumulatedAmount = BigInt(event.amount) - directAmount`. -/
def splitXenBurnedEP (amount : Nat) : Nat × Nat :=
  let directAmount := amount * 80 / 100
  let accumulatedAmount := amount - directAmount
  (directAmount, accumulatedAmount)

/-- The `XENBurned` paths of `indexer.ts` (live listener and historical
`processEventLog`): `(amount * BigInt(80)) / BigInt(100)` stored as the direct
part and `(amount * BigInt(20)) / BigInt(100)` stored as the accumulated part. -/
def splitXenBurnedIndexer (amount : Nat) : Nat × Nat :=
  (amount * 80 / 100, amount * 20 / 100)

/-! ### Position lifecycle status -/

/-- The status strings written to `burn_positions.status` by the source. -/
inductive Status
  | locked
  | claimed
  | emergency_withdrawn
  | emergency_withdrawn_owner_unverified
  | claimed_unknown_type
  deriving DecidableEq, Repr

/-- `s.toLowerCase()` of JavaScript, used by the source to compare addresses
(character-wise lowercasing). -/
def lowerStr (s : String) : String := ⟨s.data.map Char.toLower⟩

/-! ### `LockClaimed` close-out scan -/

/-- A minter-contract log found in the claiming transaction's receipt, as the
`LockClaimed` handler classifies it: a parsed `XBURNClaimed`, a parsed
`EmergencyEnd`, or anything else (unparseable / uninteresting). -/
inductive MinterLog
  | xburnClaimedLog (user : String) (baseAmount bonusAmount : Nat)
  | emergencyEndLog (user : String) (baseAmount : Nat)
  | otherLog
  deriving DecidableEq, Repr

/-- The `for (const log of receipt.logs)` loop of the `LockClaimed` handler in
`indexer.ts`, with its mutable `finalStatus` / `finalClaimedAmount` passed as
accumulators.  `XBURNClaimed` sets status `claimed` and breaks; an
`EmergencyEnd` whose user equals the resolved owner sets `emergency_withdrawn`
and breaks; with an unresolved owner it sets
`emergency_withdrawn_owner_unverified` (guarded by `finalStatus !== 'claimed'`)
and keeps scanning; any other log is skipped. -/
def scanReceiptLogs (ownerAtBlock : Option String) (finalStatus : Status)
    (finalClaimedAmount : Nat) : List MinterLog → Status × Nat
  | [] => (finalStatus, finalClaimedAmount)
  | MinterLog.xburnClaimedLog _ baseAmount bonusAmount :: _ =>
      (Status.claimed, baseAmount + bonusAmount)
  | MinterLog.emergencyEndLog emergencyUser baseAmount :: rest =>
      match ownerAtBlock with
      | some owner =>
          if lowerStr emergencyUser = lowerStr owner then
            (Status.emergency_withdrawn, baseAmount)
          else
            scanReceiptLogs ownerAtBlock finalStatus finalClaimedAmount rest
      | none =>
          if finalStatus ≠ Status.claimed then
            scanReceiptLogs ownerAtBlock
              Status.emergency_withdrawn_owner_unverified baseAmount rest
          else
            scanReceiptLogs ownerAtBlock finalStatus finalClaimedAmount rest
  | MinterLog.otherLog :: rest =>
      scanReceiptLogs ownerAtBlock finalStatus finalClaimedAmount rest

/-- Full outcome of the `LockClaimed` close-out: `finalStatus` starts at
`claimed_unknown_type` with amount 0; a failed receipt fetch (outer
`try`/`catch`) leaves that default in place. -/
def lockClaimedOutcome (receiptLogs : Option (List MinterLog))
    (ownerAtBlock : Option String) : Status × Nat :=
  match receiptLogs with
  | none => (Status.claimed_unknown_type, 0)
  | some logs => scanReceiptLogs ownerAtBlock Status.claimed_unknown_type 0 logs

/-! ### Relational state and event-handler operations -/

/-- A `burn_events` row (the columns the modelled handlers read or write).
Uniquely keyed by `(transactionHash, eventType)`. -/
structure BurnEvent where
  chainId : Nat
  transactionHash : String
  blockNumber : Nat
  blockTimestamp : Nat
  userAddress : Option String
  xenAmountDirect : Nat
  xenAmountAccumulated : Nat
  eventType : String
  nftId : Option Nat
  deriving DecidableEq, Repr

/-- A `burn_positions` row.  Uniquely keyed by `(chainId, nftId)`. -/
structure BurnPosition where
  chainId : Nat
  nftId : Nat
  userAddress : String
  xenBurnedTotal : Nat
  lockPeriodDays : Nat
  maturityTimestamp : Nat
  mintTransactionHash : String
  mintBlockTimestamp : Nat
  status : Status
  amplifierAtBurn : Option Nat
  xburnRewardPotential : Option Nat
  claimedTransactionHash : Option String
  claimedBlockTimestamp : Option Nat
  claimedXburnAmount : Option Nat
  createdAt : Nat
  updatedAt : Nat
  deriving DecidableEq, Repr

/-- Natural key of `burn_positions` (UNIQUE(chain_id, nft_id)). -/
def pkey (p : BurnPosition) : Nat × Nat := (p.chainId, p.nftId)

/-- The two tables the modelled handlers touch. -/
structure DbState where
  events : List BurnEvent
  positions : List BurnPosition
  deriving DecidableEq, Repr

/-- A decoded `BurnNFTMinted` event. -/
structure MintEvent where
  chainId : Nat
  tokenId : Nat
  user : String
  xenAmount : Nat
  termDays : Nat
  transactionHash : String
  blockNumber : Nat
  blockTimestamp : Nat
  deriving DecidableEq, Repr

/-- A decoded minter-level `XBURNClaimed` event (carries no position id). -/
structure MinterClaimEvent where
  chainId : Nat
  user : String
  baseAmount : Nat
  bonusAmount : Nat
  transactionHash : String
  blockNumber : Nat
  blockTimestamp : Nat
  deriving DecidableEq, Repr

/-- A decoded position-level `LockClaimed` event. -/
structure LockClaimedEvent where
  chainId : Nat
  tokenId : Nat
  transactionHash : String
  blockTimestamp : Nat
  deriving DecidableEq, Repr

/-- `INSERT ... ON CONFLICT (transaction_hash, event_type) DO NOTHING`. -/
def insertEventIfAbsent (es : List BurnEvent) (row : BurnEvent) : List BurnEvent :=
  if es.any (fun e => e.transactionHash == row.transactionHash
      && e.eventType == row.eventType) then
    es
  else
    es ++ [row]

/-- Whether a positions table already has a row for a `(chainId, nftId)` key. -/
def hasKey (ps : List BurnPosition) (cid nid : Nat) : Bool :=
  ps.any (fun p => p.chainId == cid && p.nftId == nid)

/-- The `DO UPDATE` branch of `handleBurnNftMintedEvent`'s upsert: overwrites
the mint fields and `updated_at = NOW()` on the keyed row, but does not touch
`status` or the claim columns. -/
def mintUpd (e : MintEvent) (now : Nat) (p : BurnPosition) : BurnPosition :=
  if p.chainId == e.chainId && p.nftId == e.tokenId then
    { p with
      userAddress := lowerStr e.user
      xenBurnedTotal := e.xenAmount
      lockPeriodDays := e.termDays
      maturityTimestamp := e.blockTimestamp + e.termDays * 86400
      mintTransactionHash := e.transactionHash
      mintBlockTimestamp := e.blockTimestamp
      updatedAt := now }
  else p

/-- The row inserted by `handleBurnNftMintedEvent` when the key is new. -/
def mintNewRow (e : MintEvent) (now : Nat) : BurnPosition :=
  { chainId := e.chainId
    nftId := e.tokenId
    userAddress := lowerStr e.user
    xenBurnedTotal := e.xenAmount
    lockPeriodDays := e.termDays
    maturityTimestamp := e.blockTimestamp + e.termDays * 86400
    mintTransactionHash := e.transactionHash
    mintBlockTimestamp := e.blockTimestamp
    status := Status.locked
    amplifierAtBurn := none
    xburnRewardPotential := none
    claimedTransactionHash := none
    claimedBlockTimestamp := none
    claimedXburnAmount := none
    createdAt := now
    updatedAt := now }

/-- The `UPDATE burn_events SET nft_id` patch linking the same-transaction
`XENBurned` row to the minted position. -/
def nftPatch (e : MintEvent) (ev : BurnEvent) : BurnEvent :=
  if ev.transactionHash == e.transactionHash && ev.chainId == e.chainId
      && ev.eventType == "XENBurned" then
    { ev with nftId := some e.tokenId }
  else ev

/-- The amplifier-placeholder `UPDATE burn_positions SET amplifier_at_burn =
1000` (the schema trigger bumps `updated_at` on every UPDATE). -/
def ampUpd (e : MintEvent) (now : Nat) (p : BurnPosition) : BurnPosition :=
  if p.nftId == e.tokenId && p.chainId == e.chainId then
    { p with amplifierAtBurn := some 1000, updatedAt := now }
  else p

/-- `handleBurnNftMintedEvent` (`eventProcessor.ts`): upsert into
`burn_positions` on `(chain_id, nft_id)`; then the same-transaction
`XENBurned` burn-event row is patched with the NFT id; then the placeholder
amplifier value is written. -/
def handleBurnNftMintedEvent (st : DbState) (e : MintEvent) (now : Nat) : DbState :=
  let ps :=
    if hasKey st.positions e.chainId e.tokenId then
      st.positions.map (mintUpd e now)
    else
      st.positions ++ [mintNewRow e now]
  { events := st.events.map (nftPatch e), positions := ps.map (ampUpd e now) }

/-- The `BurnNFTMinted` path of `indexer.ts`: `INSERT ... ON CONFLICT
(chain_id, nft_id) DO NOTHING` for the position (with the RPC-fetched
amplifier / reward snapshot, zero placeholders on fetch failure), plus an
audit burn-event insert with the same DO NOTHING conflict handling. -/
def mintIndexer (st : DbState) (e : MintEvent) (amp reward : Nat) (now : Nat) :
    DbState :=
  let maturityTimestamp := e.blockTimestamp + e.termDays * 86400
  let ps :=
    if hasKey st.positions e.chainId e.tokenId then
      st.positions
    else
      st.positions ++ [{
        chainId := e.chainId
        nftId := e.tokenId
        userAddress := e.user
        xenBurnedTotal := e.xenAmount
        lockPeriodDays := e.termDays
        maturityTimestamp := maturityTimestamp
        mintTransactionHash := e.transactionHash
        mintBlockTimestamp := e.blockTimestamp
        status := Status.locked
        amplifierAtBurn := some amp
        xburnRewardPotential := some reward
        claimedTransactionHash := none
        claimedBlockTimestamp := none
        claimedXburnAmount := none
        createdAt := now
        updatedAt := now }]
  let es := insertEventIfAbsent st.events {
    chainId := e.chainId
    transactionHash := e.transactionHash
    blockNumber := e.blockNumber
    blockTimestamp := e.blockTimestamp
    userAddress := some e.user
    xenAmountDirect := e.xenAmount
    xenAmountAccumulated := 0
    eventType := "BurnNFTMinted"
    nftId := none }
  { events := es, positions := ps }

/-- `SELECT nft_id FROM burn_positions WHERE user_address = $1 AND chain_id =
$2 AND status = 'locked' ORDER BY maturity_timestamp ASC LIMIT 1` of
`handleXburnClaimedEvent`. -/
def earliestLocked (ps : List BurnPosition) (user : String) (cid : Nat) :
    Option BurnPosition :=
  (ps.filter (fun p => p.userAddress == lowerStr user && p.chainId == cid
      && p.status == Status.locked)).foldl
    (fun acc p =>
      match acc with
      | none => some p
      | some q => if p.maturityTimestamp < q.maturityTimestamp then some p else some q)
    none

/-- The `UPDATE burn_positions SET status = 'claimed', ...` of
`handleXburnClaimedEvent`, keyed on the selected NFT id and chain. -/
def claimUpd (e : MinterClaimEvent) (selNft : Nat) (now : Nat)
    (p : BurnPosition) : BurnPosition :=
  if p.nftId == selNft && p.chainId == e.chainId then
    { p with
      status := Status.claimed
      claimedTransactionHash := some e.transactionHash
      claimedBlockTimestamp := some e.blockTimestamp
      claimedXburnAmount := some (e.baseAmount + e.bonusAmount)
      updatedAt := now }
  else p

/-- `handleXburnClaimedEvent` (`eventProcessor.ts`): look up the user's
earliest-maturity locked position; if one exists overwrite it as `claimed`
with the claim transaction, timestamp and `baseAmount + bonusAmount`; if none
exists only a warning is logged.  The handler inserts nothing into
`burn_events`. -/
def handleXburnClaimedEvent (st : DbState) (e : MinterClaimEvent) (now : Nat) :
    DbState :=
  match earliestLocked st.positions e.user e.chainId with
  | none => st
  | some sel =>
    { st with positions := st.positions.map (claimUpd e sel.nftId now) }

/-- The minter-level `XBURNClaimed` path of `indexer.ts`: a single audit
burn-event insert (`ON CONFLICT DO NOTHING`); `burn_positions` is not touched
because the event carries no token id. -/
def minterClaimIndexer (st : DbState) (e : MinterClaimEvent) : DbState :=
  { st with events := insertEventIfAbsent st.events {
      chainId := e.chainId
      transactionHash := e.transactionHash
      blockNumber := e.blockNumber
      blockTimestamp := e.blockTimestamp
      userAddress := some e.user
      xenAmountDirect := e.baseAmount + e.bonusAmount
      xenAmountAccumulated := 0
      eventType := "XBURNClaimed"
      nftId := none } }

/-- The terminal `UPDATE burn_positions SET status, claimed_transaction_hash,
claimed_block_timestamp, claimed_xburn_amount WHERE chain_id AND nft_id` of the
`LockClaimed` handler, fed by `lockClaimedOutcome`. -/
def lockUpd (e : LockClaimedEvent) (outcome : Status × Nat) (now : Nat)
    (p : BurnPosition) : BurnPosition :=
  if p.chainId == e.chainId && p.nftId == e.tokenId then
    { p with
      status := outcome.1
      claimedTransactionHash := some e.transactionHash
      claimedBlockTimestamp := some e.blockTimestamp
      claimedXburnAmount := some outcome.2
      updatedAt := now }
  else p

/-- See `lockUpd`: the whole `LockClaimed` close-out update. -/
def handleLockClaimedEvent (st : DbState) (e : LockClaimedEvent)
    (receiptLogs : Option (List MinterLog)) (ownerAtBlock : Option String)
    (now : Nat) : DbState :=
  { st with positions := st.positions.map (lockUpd e (lockClaimedOutcome receiptLogs ownerAtBlock) now) }

/-- The event-handler operations that touch `burn_positions` or `burn_events`,
over which the one-way status invariant is stated. -/
inductive Op
  | mintEP (e : MintEvent) (now : Nat)
  | mintIdx (e : MintEvent) (amp reward now : Nat)
  | minterClaimEP (e : MinterClaimEvent) (now : Nat)
  | minterClaimIdx (e : MinterClaimEvent)
  | lockClaimed (e : LockClaimedEvent) (receiptLogs : Option (List MinterLog))
      (ownerAtBlock : Option String) (now : Nat)

/-- Dispatch one operation against the store. -/
def applyOp (st : DbState) : Op → DbState
  | Op.mintEP e now => handleBurnNftMintedEvent st e now
  | Op.mintIdx e amp reward now => mintIndexer st e amp reward now
  | Op.minterClaimEP e now => handleXburnClaimedEvent st e now
  | Op.minterClaimIdx e => minterClaimIndexer st e
  | Op.lockClaimed e logs owner now => handleLockClaimedEvent st e logs owner now

/-- Apply a sequence of operations in order. -/
def applyOps (st : DbState) (ops : List Op) : DbState :=
  ops.foldl applyOp st

/-! ### EventListener poll batches -/

/-- The window arithmetic of `EventListener.processEvents`:
`fromBlock = lastProcessedBlock + 1`,
`toBlock = Math.min(currentBlock - 5, fromBlock + blocksPerBatch - 1)`,
and the `fromBlock > toBlock` no-op guard. -/
def batchWindow (lastProcessedBlock blocksPerBatch currentBlock : Int) :
    Option (Int × Int) :=
  let fromBlock := lastProcessedBlock + 1
  let toBlock := min (currentBlock - 5) (fromBlock + blocksPerBatch - 1)
  if fromBlock > toBlock then none else some (fromBlock, toBlock)

/-- One of the four per-category fetches (`processBurnEvents`,
`processXenBurnedEvents`, `processBurnNFTMintedEvents`,
`processXburnClaimedEvents`).  Each wraps its body in `try`/`catch` and only
logs on failure, so the promise returned to `Promise.all` always resolves;
a failed fetch simply emits no events. -/
def runCategoryFetch (fetchResult : Except Unit (List Nat)) : List Nat :=
  match fetchResult with
  | Except.ok evts => evts
  | Except.error _ => []

/-- `EventListener.processEvents` for one poll (the reentrancy guard already
passed): returns the new cursor, whether `blockProcessed` was emitted, and the
domain events emitted by the four category fetches.  `headResult = none`
models `getBlockNumber()` throwing, which the outer `catch` turns into an
`error` emission with the cursor untouched. -/
def processEvents (lastProcessedBlock blocksPerBatch : Int)
    (headResult : Option Int)
    (fetch1 fetch2 fetch3 fetch4 : Except Unit (List Nat)) :
    Int × Bool × List Nat :=
  match headResult with
  | none => (lastProcessedBlock, false, [])
  | some currentBlock =>
    match batchWindow lastProcessedBlock blocksPerBatch currentBlock with
    | none => (lastProcessedBlock, false, [])
    | some (_, toBlock) =>
      let emittedEvents := runCategoryFetch fetch1 ++ runCategoryFetch fetch2
        ++ runCategoryFetch fetch3 ++ runCategoryFetch fetch4
      (toBlock, true, emittedEvents)

/-! ### DataValidator gap detection -/

/-- The `for` loop of `DataValidator.detectBlockGaps`: walk consecutive pairs
of the ordered distinct block numbers and record `(previousBlock,
currentBlock, gap)` whenever `gap > 1 && gap < 1000`. -/
def detectGapsLoop (previousBlock : Int) : List Int → List (Int × Int × Int)
  | [] => []
  | currentBlock :: rest =>
      let gap := currentBlock - previousBlock
      if 1 < gap ∧ gap < 1000 then
        (previousBlock, currentBlock, gap) :: detectGapsLoop currentBlock rest
      else
        detectGapsLoop currentBlock rest

/-- `DataValidator.detectBlockGaps` on a chain's ordered distinct observed
block numbers (the loop only runs `if (indexedBlocks.length > 1)`). -/
def detectBlockGaps (indexedBlocks : List Int) : List (Int × Int × Int) :=
  match indexedBlocks with
  | [] => []
  | b :: rest => detectGapsLoop b rest

/-- The specification's own wording of gap detection, for comparison: one
BlockGap exactly for each consecutive pair whose delta is greater than 1 and
less than 1000. -/
def specGaps (indexedBlocks : List Int) : List (Int × Int × Int) :=
  (indexedBlocks.zip indexedBlocks.tail).filterMap (fun pr =>
    if 1 < pr.2 - pr.1 ∧ pr.2 - pr.1 < 1000 then
      some (pr.1, pr.2, pr.2 - pr.1)
    else none)

/-! ### ChainManager.addChain -/

/-- A chain configuration as `ChainManager.addChain` receives it.  JavaScript
truthiness makes the empty string and 0 behave as a missing value in the
`!config.x` checks, so missing fields are modelled as `""` / `0`. -/
structure ChainConfig where
  chainId : Nat
  name : String
  rpcUrl : String
  xenContractAddress : String
  xburnMinterAddress : String
  xburnNftAddress : String
  startBlock : Nat
  blocksPerBatch : Nat
  enabled : Bool
  deriving DecidableEq, Repr

/-- A `chains` table row (the columns `addChain` writes). -/
structure ChainRow where
  chainId : Nat
  name : String
  rpcUrl : String
  xenContractAddress : String
  xburnMinterAddress : String
  xburnNftAddress : String
  lastIndexedBlock : Nat
  deriving DecidableEq, Repr

/-- Manager state: the `chains` table plus the set of chain ids whose
listener+processor pair has been started. -/
structure MgrState where
  chains : List ChainRow
  started : List Nat
  deriving DecidableEq, Repr

/-- The failure `addChain` raises internally:
`throw new Error('Invalid chain configuration')` — the spec's
ConfigurationError. -/
inductive AddChainError
  | configurationError
  deriving DecidableEq, Repr

/-- The validation guard of `addChain`: `!config.chainId || !config.name ||
!config.rpcUrl || !config.xenContractAddress || !config.xburnMinterAddress ||
!config.xburnNftAddress`. -/
def validChainConfig (cfg : ChainConfig) : Bool :=
  !(cfg.chainId == 0) && !(cfg.name == "") && !(cfg.rpcUrl == "")
    && !(cfg.xenContractAddress == "") && !(cfg.xburnMinterAddress == "")
    && !(cfg.xburnNftAddress == "")

/-- The row written by `addChain`'s upsert. -/
def chainRowOf (cfg : ChainConfig) : ChainRow :=
  { chainId := cfg.chainId
    name := cfg.name
    rpcUrl := cfg.rpcUrl
    xenContractAddress := cfg.xenContractAddress
    xburnMinterAddress := cfg.xburnMinterAddress
    xburnNftAddress := cfg.xburnNftAddress
    lastIndexedBlock := cfg.startBlock }

/-- `INSERT INTO chains ... ON CONFLICT (chain_id) DO UPDATE SET ...`. -/
def upsertChain (rows : List ChainRow) (row : ChainRow) : List ChainRow :=
  if rows.any (fun r => r.chainId == row.chainId) then
    rows.map (fun r => if r.chainId == row.chainId then row else r)
  else
    rows ++ [row]

/-- The body of `addChain` up to its `catch`: validation failure throws the
configuration error; otherwise the chain row is upserted and, if the config is
enabled, ingestion is started for it. -/
def addChainChecked (st : MgrState) (cfg : ChainConfig) :
    Except AddChainError MgrState :=
  if validChainConfig cfg then
    Except.ok
      { chains := upsertChain st.chains (chainRowOf cfg)
        started := if cfg.enabled then st.started ++ [cfg.chainId] else st.started }
  else
    Except.error AddChainError.configurationError

/-- `ChainManager.addChain` as the caller sees it: the surrounding
`try`/`catch` converts any thrown error into a logged message and `return
false`; success returns `true`. -/
def addChain (st : MgrState) (cfg : ChainConfig) : Bool × MgrState :=
  match addChainChecked st cfg with
  | Except.error _ => (false, st)
  | Except.ok st' => (true, st')

/-! ### AnalyticsEngine amplifier -/

/-- `daysActive = Math.floor((currentTimestamp - launchTimestamp) / (24 * 60 *
60))` of `calculateAmplifierValue` (floor division on possibly negative
differences). -/
def daysActive (currentTimestamp launchTimestamp : Int) : Int :=
  (currentTimestamp - launchTimestamp).fdiv 86400

/-- `const amplifier = daysActive >= 3000 ? 1 : 3000 - daysActive`. -/
def calculateAmplifierValue (d : Int) : Int :=
  if d ≥ 3000 then 1 else 3000 - d

/-! ### Auxiliary predicates and sample data used by the theorems -/

/-- Whether a receipt-log list contains a parsed `XBURNClaimed` event. -/
def hasXburnClaimed (logs : List MinterLog) : Bool :=
  logs.any fun l =>
    match l with
    | MinterLog.xburnClaimedLog _ _ _ => true
    | _ => false

/-- Whether a receipt-log list contains a parsed `EmergencyEnd` event. -/
def hasEmergencyEnd (logs : List MinterLog) : Bool :=
  logs.any fun l =>
    match l with
    | MinterLog.emergencyEndLog _ _ => true
    | _ => false

/-- The UNIQUE(chain_id, nft_id) constraint of `burn_positions`: no two rows
share a natural key. -/
def KeysUnique (ps : List BurnPosition) : Prop :=
  ps.Pairwise (fun a b => pkey a ≠ pkey b)

instance : DecidablePred KeysUnique := fun ps =>
  List.instDecidablePairwise ps

/-- A row with `updated_at` blanked, to compare rows up to that bookkeeping
column. -/
def stripUpdatedAt (p : BurnPosition) : BurnPosition :=
  { p with updatedAt := 0 }

/-- The position row `handleBurnNftMintedEvent` produces when inserting into
an empty table at time `n` (after the amplifier-placeholder update). -/
def mintRowEP (e : MintEvent) (n : Nat) : BurnPosition :=
  { chainId := e.chainId
    nftId := e.tokenId
    userAddress := lowerStr e.user
    xenBurnedTotal := e.xenAmount
    lockPeriodDays := e.termDays
    maturityTimestamp := e.blockTimestamp + e.termDays * 86400
    mintTransactionHash := e.transactionHash
    mintBlockTimestamp := e.blockTimestamp
    status := Status.locked
    amplifierAtBurn := some 1000
    xburnRewardPotential := none
    claimedTransactionHash := none
    claimedBlockTimestamp := none
    claimedXburnAmount := none
    createdAt := n
    updatedAt := n }

/-- The position row `mintIndexer` inserts. -/
def mintRowIdx (e : MintEvent) (amp reward n : Nat) : BurnPosition :=
  { chainId := e.chainId
    nftId := e.tokenId
    userAddress := e.user
    xenBurnedTotal := e.xenAmount
    lockPeriodDays := e.termDays
    maturityTimestamp := e.blockTimestamp + e.termDays * 86400
    mintTransactionHash := e.transactionHash
    mintBlockTimestamp := e.blockTimestamp
    status := Status.locked
    amplifierAtBurn := some amp
    xburnRewardPotential := some reward
    claimedTransactionHash := none
    claimedBlockTimestamp := none
    claimedXburnAmount := none
    createdAt := n
    updatedAt := n }

/-- The audit burn-event row `mintIndexer` inserts. -/
def mintAuditRow (e : MintEvent) : BurnEvent :=
  { chainId := e.chainId
    transactionHash := e.transactionHash
    blockNumber := e.blockNumber
    blockTimestamp := e.blockTimestamp
    userAddress := some e.user
    xenAmountDirect := e.xenAmount
    xenAmountAccumulated := 0
    eventType := "BurnNFTMinted"
    nftId := none }

/-- Two deliveries of the same mint event to an initially empty store through
the `eventProcessor.ts` handler, at clock times `n1` then `n2`. -/
def twiceMintEP (e : MintEvent) (n1 n2 : Nat) : DbState :=
  handleBurnNftMintedEvent (handleBurnNftMintedEvent ⟨[], []⟩ e n1) e n2

/-- A concrete locked position used to instantiate theorems. -/
def samplePosition : BurnPosition :=
  { chainId := 1
    nftId := 7
    userAddress := "u"
    xenBurnedTotal := 1000
    lockPeriodDays := 30
    maturityTimestamp := 100 + 30 * 86400
    mintTransactionHash := "0xmint"
    mintBlockTimestamp := 100
    status := Status.locked
    amplifierAtBurn := none
    xburnRewardPotential := none
    claimedTransactionHash := none
    claimedBlockTimestamp := none
    claimedXburnAmount := none
    createdAt := 100
    updatedAt := 100 }

/-- `samplePosition` after a terminal close-out. -/
def claimedSample : BurnPosition :=
  { samplePosition with status := Status.claimed }

/-- A concrete `BurnNFTMinted` event matching `samplePosition`'s key. -/
def sampleMint : MintEvent :=
  { chainId := 1
    tokenId := 7
    user := "u"
    xenAmount := 1000
    termDays := 30
    transactionHash := "0xmint"
    blockNumber := 100
    blockTimestamp := 100 }

/-- The row produced by re-delivering `sampleMint` (at time 5) over
`claimedSample`: mint fields overwritten, amplifier placeholder stamped,
status untouched. -/
def mintedOverClaimed : BurnPosition :=
  { claimedSample with amplifierAtBurn := some 1000, updatedAt := 5 }

/-- A concrete minter-level `XBURNClaimed` event for `samplePosition`'s user. -/
def sampleMinterClaim : MinterClaimEvent :=
  { chainId := 1
    user := "u"
    baseAmount := 10
    bonusAmount := 2
    transactionHash := "0xclaim"
    blockNumber := 200
    blockTimestamp := 900 }

/-- A valid chain configuration used to instantiate theorems. -/
def sampleChainConfig : ChainConfig :=
  { chainId := 8453
    name := "Base"
    rpcUrl := "https://base.llamarpc.com"
    xenContractAddress := "0xffcb"
    xburnMinterAddress := "0xe89A"
    xburnNftAddress := "0x305C"
    startBlock := 7300000
    blocksPerBatch := 2000
    enabled := true }

/-- `sampleChainConfig` with its RPC URL missing. -/
def sampleChainConfigNoRpc : ChainConfig :=
  { sampleChainConfig with rpcUrl := "" }

/-! ## C1: the 80/20 split -/

/-- C1 counterexample: the indexer's `XENBurned` handler splits 99 into a
direct share of 79 and an accumulated share of 19 (both by truncating
division), so the stored direct + accumulated is 98, not the original 99 —
the truncation remainder is not assigned to the accumulated share. -/
theorem c1_indexer_split_lossy :
    splitXenBurnedIndexer 99 = (79, 19) ∧ 79 + 19 ≠ 99 := by
  decide

/-- C1 (amended): in the `eventProcessor.ts` handler the direct share is the
80% integer-division share, the accumulated share is the whole remainder, and
direct + accumulated equals the amount exactly; in the `indexer.ts` handlers
the accumulated share is itself the truncated 20% share, so direct +
accumulated equals the amount exactly iff the amount is divisible by 5
(otherwise it falls short by 1). -/
theorem c1_split_shares (amount : Nat) :
    (splitXenBurnedEP amount).1 = amount * 80 / 100 ∧
    (splitXenBurnedEP amount).2 = amount - amount * 80 / 100 ∧
    (splitXenBurnedEP amount).1 + (splitXenBurnedEP amount).2 = amount ∧
    ((splitXenBurnedIndexer amount).1 + (splitXenBurnedIndexer amount).2 = amount
      ↔ amount % 5 = 0) ∧
    (amount % 5 ≠ 0 →
      (splitXenBurnedIndexer amount).1 + (splitXenBurnedIndexer amount).2
        = amount - 1) := by
  have h80 : amount * 80 / 100 = amount * 4 / 5 := by
    rw [show amount * 80 = amount * 4 * 20 by ring,
      show (100 : Nat) = 5 * 20 by norm_num,
      Nat.mul_div_mul_right _ _ (by norm_num)]
  have h20 : amount * 20 / 100 = amount / 5 := by
    rw [show (100 : Nat) = 5 * 20 by norm_num,
      Nat.mul_div_mul_right _ _ (by norm_num)]
  refine ⟨rfl, rfl, ?_, ?_, ?_⟩ <;>
    simp only [splitXenBurnedEP, splitXenBurnedIndexer, h80, h20] <;> omega

/-- Closed instance of `c1_split_shares` exercising the divisibility
hypothesis of the last conjunct. -/
theorem c1_split_shares_witness :
    (99 % 5 ≠ 0) ∧
    (splitXenBurnedIndexer 99).1 + (splitXenBurnedIndexer 99).2 = 99 - 1 :=
  ⟨by decide, (c1_split_shares 99).2.2.2.2 (by decide)⟩

/-! ## C7: the poll-batch window -/

/-- C7: each poll computes `fromBlock = cursor + 1` and
`toBlock = min(head - confirmationBuffer, fromBlock + batchSize - 1)` with a
confirmation buffer of 5, no-ops exactly when `fromBlock > toBlock`, and on
the spec's two examples (head 2010 and head 1010, batch size 100, cursor
1000) produces the windows [1001, 1100] and [1001, 1005]. -/
theorem c7_batch_window (cursor bpb head fromB toB : Int) :
    (batchWindow cursor bpb head = some (fromB, toB) →
      fromB = cursor + 1 ∧ toB = min (head - 5) (fromB + bpb - 1)) ∧
    (batchWindow cursor bpb head = none ↔
      cursor + 1 > min (head - 5) (cursor + bpb)) ∧
    batchWindow 1000 100 2010 = some (1001, 1100) ∧
    batchWindow 1000 100 1010 = some (1001, 1005) := by
  refine ⟨?_, ?_, by decide, by decide⟩
  · intro h
    simp only [batchWindow] at h
    split at h
    · exact absurd h (by simp)
    · simp only [Option.some.injEq, Prod.mk.injEq] at h
      exact ⟨h.1.symm, by rw [← h.2, ← h.1]⟩
  · simp only [batchWindow]
    split
    · next hgt => exact ⟨fun _ => by omega, fun _ => rfl⟩
    · next hle =>
      constructor
      · intro h; exact absurd h (by simp)
      · intro hgt; exact absurd hgt (by omega)

/-- Closed instance of `c7_batch_window` discharging its hypothesis on the
spec's first example. -/
theorem c7_batch_window_witness :
    batchWindow 1000 100 2010 = some (1001, 1100) ∧
    (1001 : Int) = 1000 + 1 ∧ (1100 : Int) = min (2010 - 5) (1001 + 100 - 1) :=
  ⟨by decide, ((c7_batch_window 1000 100 2010 1001 1100).1 (by decide)).1,
    ((c7_batch_window 1000 100 2010 1001 1100).1 (by decide)).2⟩

/-! ## C8: gap detection -/

/-- The validator loop agrees with the consecutive-pairs formulation. -/
theorem detectGapsLoop_eq_spec (rest : List Int) : ∀ prev,
    detectGapsLoop prev rest = specGaps (prev :: rest) := by
  induction rest with
  | nil => intro prev; rfl
  | cons c rs ih =>
    intro prev
    simp only [detectGapsLoop, specGaps, List.tail_cons, List.zip_cons_cons,
      List.filterMap_cons]
    have hrs : specGaps (c :: rs) = ((c :: rs).zip rs).filterMap (fun pr =>
        if 1 < pr.2 - pr.1 ∧ pr.2 - pr.1 < 1000 then
          some (pr.1, pr.2, pr.2 - pr.1)
        else none) := rfl
    rw [ih c, hrs]
    split
    · next hgap => simp only [if_pos hgap]
    · next hgap => simp only [if_neg hgap]

/-- C8: gap detection over a chain's sorted distinct observed block numbers
records a gap exactly for each consecutive pair whose delta is strictly
between 1 and 1000 (so deltas of 1000 or more record nothing), and on the
observed blocks {100, 101, 105, 106} it reports exactly the single gap from
101 to 105 with size 4. -/
theorem c8_detect_block_gaps (blocks : List Int) :
    detectBlockGaps blocks = specGaps blocks ∧
    detectBlockGaps [100, 101, 105, 106] = [(101, 105, 4)] ∧
    detectBlockGaps [100, 1100] = [] := by
  refine ⟨?_, by decide, by decide⟩
  match blocks with
  | [] => rfl
  | b :: rest => exact detectGapsLoop_eq_spec rest b

/-! ## C10: the amplifier metric -/

/-- C10: the amplifier equals `3000 - daysActive` when `daysActive < 3000`
and 1 otherwise, where `daysActive` floors the age of the chain record in
days; for every nonnegative `daysActive` it lies in [1, 3000], and it is
nonincreasing in `daysActive`. -/
theorem c10_amplifier (currentTs launchTs : Int) :
    (daysActive currentTs launchTs < 3000 →
      calculateAmplifierValue (daysActive currentTs launchTs)
        = 3000 - daysActive currentTs launchTs) ∧
    (3000 ≤ daysActive currentTs launchTs →
      calculateAmplifierValue (daysActive currentTs launchTs) = 1) ∧
    (0 ≤ daysActive currentTs launchTs →
      1 ≤ calculateAmplifierValue (daysActive currentTs launchTs) ∧
      calculateAmplifierValue (daysActive currentTs launchTs) ≤ 3000) ∧
    (∀ d d' : Int, d ≤ d' →
      calculateAmplifierValue d' ≤ calculateAmplifierValue d) := by
  refine ⟨?_, ?_, ?_, ?_⟩
  · intro h; simp only [calculateAmplifierValue]; split <;> omega
  · intro h; simp only [calculateAmplifierValue]; split <;> omega
  · intro h; simp only [calculateAmplifierValue]; split <;> omega
  · intro d d' h
    simp only [calculateAmplifierValue]
    split <;> split <;> omega

/-- Closed instance of `c10_amplifier` at a chain record 10 days old. -/
theorem c10_amplifier_witness :
    daysActive 864000 0 < 3000 ∧
    calculateAmplifierValue (daysActive 864000 0) = 3000 - daysActive 864000 0 ∧
    0 ≤ daysActive 864000 0 ∧
    1 ≤ calculateAmplifierValue (daysActive 864000 0) :=
  ⟨by decide, (c10_amplifier 864000 0).1 (by decide), by decide,
    ((c10_amplifier 864000 0).2.2.1 (by decide)).1⟩

/-! ## C2: cursor advance vs per-category fetch failures -/

/-- C2 counterexample: with head 2010, batch size 100 and cursor 1000, a
failing direct-burn fetch does not stop the batch — the cursor still advances
to 1100 and `blockProcessed` is still emitted, because each per-category
fetch catches its own error and its promise resolves normally. -/
theorem c2_fetch_failure_still_advances :
    processEvents 1000 100 (some 2010) (Except.error ()) (Except.ok [1])
      (Except.ok []) (Except.ok []) = (1100, true, [1]) ∧
    (1100 : Int) ≠ 1000 := by
  constructor
  · decide
  · decide

/-- C2 (amended): each per-category fetch catches its own errors, so whenever
the head fetch succeeds and the window is nonempty the cursor advances to the
window's end and `blockProcessed` is emitted regardless of the four fetch
outcomes (a failed fetch merely contributes no emitted events); the cursor is
left untouched only when the head fetch itself fails or the window is
empty. -/
theorem c2_cursor_advance (cursor bpb head : Int)
    (f1 f2 f3 f4 : Except Unit (List Nat)) :
    (∀ fromB toB, batchWindow cursor bpb head = some (fromB, toB) →
      processEvents cursor bpb (some head) f1 f2 f3 f4 =
        (toB, true,
          runCategoryFetch f1 ++ runCategoryFetch f2 ++ runCategoryFetch f3
            ++ runCategoryFetch f4)) ∧
    (batchWindow cursor bpb head = none →
      processEvents cursor bpb (some head) f1 f2 f3 f4 = (cursor, false, [])) ∧
    processEvents cursor bpb none f1 f2 f3 f4 = (cursor, false, []) ∧
    (∀ l, runCategoryFetch (Except.error ()) = ([] : List Nat) ∧
      runCategoryFetch (Except.ok l) = l) := by
  refine ⟨?_, ?_, rfl, fun l => ⟨rfl, rfl⟩⟩
  · intro fromB toB h
    simp only [processEvents, h]
  · intro h
    simp only [processEvents, h]

/-- Closed instance of `c2_cursor_advance` discharging its window
hypothesis with two of the four fetches failing. -/
theorem c2_cursor_advance_witness :
    batchWindow 1000 100 2010 = some (1001, 1100) ∧
    processEvents 1000 100 (some 2010) (Except.error ()) (Except.error ())
      (Except.ok []) (Except.ok []) = (1100, true, []) :=
  ⟨by decide,
    by
      have h := (c2_cursor_advance 1000 100 2010 (Except.error ())
        (Except.error ()) (Except.ok []) (Except.ok [])).1 1001 1100 (by decide)
      simpa [runCategoryFetch] using h⟩

/-! ## C9: addChain validation -/

/-- The upserted row is always present after `upsertChain`. -/
theorem chainRow_mem_upsert (rows : List ChainRow) (row : ChainRow) :
    row ∈ upsertChain rows row := by
  unfold upsertChain
  split
  · next hany =>
    rw [List.any_eq_true] at hany
    obtain ⟨r, hr, hpr⟩ := hany
    exact List.mem_map.mpr ⟨r, hr, by simp [hpr]⟩
  · exact List.mem_append_right _ (List.mem_singleton.mpr rfl)

/-- C9: `addChain` fails — the internal configuration error that the
surrounding catch reports to the caller as a synchronous `false` with the
state untouched — exactly when one of chain id, name, RPC URL, or the three
contract addresses is missing; when all are present it returns `true`,
upserts the chain row, and starts ingestion iff the configuration is
enabled. -/
theorem c9_add_chain (st : MgrState) (cfg : ChainConfig) :
    (validChainConfig cfg = false ↔
      (cfg.chainId = 0 ∨ cfg.name = "" ∨ cfg.rpcUrl = "" ∨
       cfg.xenContractAddress = "" ∨ cfg.xburnMinterAddress = "" ∨
       cfg.xburnNftAddress = "")) ∧
    (validChainConfig cfg = false →
      addChainChecked st cfg = Except.error AddChainError.configurationError ∧
      addChain st cfg = (false, st)) ∧
    (validChainConfig cfg = true →
      (addChain st cfg).1 = true ∧
      chainRowOf cfg ∈ (addChain st cfg).2.chains ∧
      ((addChain st cfg).2.started =
        if cfg.enabled then st.started ++ [cfg.chainId] else st.started)) := by
  have hv : validChainConfig cfg = true ↔
      (cfg.chainId ≠ 0 ∧ cfg.name ≠ "" ∧ cfg.rpcUrl ≠ "" ∧
       cfg.xenContractAddress ≠ "" ∧ cfg.xburnMinterAddress ≠ "" ∧
       cfg.xburnNftAddress ≠ "") := by
    simp only [validChainConfig, Bool.and_eq_true, Bool.not_eq_true',
      beq_eq_false_iff_ne, ne_eq, and_assoc]
  refine ⟨?_, ?_, ?_⟩
  · rw [← Bool.not_eq_true, hv]
    tauto
  · intro h
    have : addChainChecked st cfg = Except.error AddChainError.configurationError := by
      simp [addChainChecked, h]
    exact ⟨this, by simp [addChain, this]⟩
  · intro h
    have : addChainChecked st cfg = Except.ok
        { chains := upsertChain st.chains (chainRowOf cfg)
          started := if cfg.enabled then st.started ++ [cfg.chainId]
            else st.started } := by
      simp [addChainChecked, h]
    refine ⟨by simp [addChain, this], ?_, by simp [addChain, this]⟩
    simp only [addChain, this]
    exact chainRow_mem_upsert st.chains (chainRowOf cfg)

/-- Closed instance of `c9_add_chain`: a config with a missing RPC URL is
rejected with the state untouched; the fully populated config is accepted. -/
theorem c9_add_chain_witness :
    validChainConfig sampleChainConfigNoRpc = false ∧
    addChain ⟨[], []⟩ sampleChainConfigNoRpc = (false, ⟨[], []⟩) ∧
    validChainConfig sampleChainConfig = true ∧
    (addChain ⟨[], []⟩ sampleChainConfig).1 = true :=
  ⟨by decide,
    ((c9_add_chain ⟨[], []⟩ sampleChainConfigNoRpc).2.1 (by decide)).2,
    by decide,
    ((c9_add_chain ⟨[], []⟩ sampleChainConfig).2.2 (by decide)).1⟩

/-! ## C3: the LockClaimed close-out scan -/

/-- The scan never produces `locked` unless it started with it. -/
theorem scan_status_ne_locked (logs : List MinterLog) :
    ∀ o s a, s ≠ Status.locked →
      (scanReceiptLogs o s a logs).1 ≠ Status.locked := by
  induction logs with
  | nil => intro o s a h; exact h
  | cons l rest ih =>
    intro o s a h
    cases l with
    | xburnClaimedLog u b bo =>
      simp only [scanReceiptLogs]
      decide
    | emergencyEndLog u b =>
      cases o with
      | some ow =>
        simp only [scanReceiptLogs]
        by_cases hlow : lowerStr u = lowerStr ow
        · rw [if_pos hlow]
          exact (by decide : Status.emergency_withdrawn ≠ Status.locked)
        · rw [if_neg hlow]; exact ih (some ow) s a h
      | none =>
        simp only [scanReceiptLogs]
        by_cases hcl : s ≠ Status.claimed
        · rw [if_pos hcl]
          exact ih none Status.emergency_withdrawn_owner_unverified b (by decide)
        · rw [if_neg hcl]; exact ih none s a h
    | otherLog => exact ih o s a h

/-- With an unresolved owner, a present `XBURNClaimed` log always wins. -/
theorem scan_none_claim_wins (logs : List MinterLog) :
    ∀ s a, s ≠ Status.claimed → hasXburnClaimed logs = true →
      (scanReceiptLogs none s a logs).1 = Status.claimed := by
  induction logs with
  | nil => intro s a _ hc; simp [hasXburnClaimed] at hc
  | cons l rest ih =>
    intro s a h hc
    cases l with
    | xburnClaimedLog u b bo => rfl
    | emergencyEndLog u b =>
      have hc' : hasXburnClaimed rest = true := by
        simpa [hasXburnClaimed] using hc
      simp only [scanReceiptLogs]
      by_cases hcl : s ≠ Status.claimed
      · rw [if_pos hcl]
        exact ih Status.emergency_withdrawn_owner_unverified b (by decide) hc'
      · rw [if_neg hcl]
        exact ih s a h hc'
    | otherLog =>
      have hc' : hasXburnClaimed rest = true := by
        simpa [hasXburnClaimed] using hc
      exact ih s a h hc'

/-- `emergency_withdrawn` arises only from an owner-verified `EmergencyEnd`
log (or was the scan's starting status). -/
theorem scan_emergency_verified (logs : List MinterLog) :
    ∀ o s a, (scanReceiptLogs o s a logs).1 = Status.emergency_withdrawn →
      s = Status.emergency_withdrawn ∨
      ∃ ow u b, o = some ow ∧ MinterLog.emergencyEndLog u b ∈ logs ∧
        lowerStr u = lowerStr ow := by
  induction logs with
  | nil => intro o s a h; exact Or.inl h
  | cons l rest ih =>
    intro o s a h
    cases l with
    | xburnClaimedLog u b bo => simp [scanReceiptLogs] at h
    | emergencyEndLog u b =>
      cases o with
      | some ow =>
        by_cases hlow : lowerStr u = lowerStr ow
        · exact Or.inr ⟨ow, u, b, rfl, List.mem_cons_self _ _, hlow⟩
        · simp only [scanReceiptLogs, if_neg hlow] at h
          rcases ih _ _ _ h with h' | ⟨ow', u', b', ho, hm, hl⟩
          · exact Or.inl h'
          · obtain rfl : ow = ow' := by injection ho
            exact Or.inr ⟨ow, u', b', rfl, List.mem_cons_of_mem _ hm, hl⟩
      | none =>
        simp only [scanReceiptLogs] at h
        split at h
        · rcases ih _ _ _ h with h' | ⟨ow', u', b', ho, hm, hl⟩
          · exact absurd h' (by decide)
          · exact absurd ho (by simp)
        · rcases ih _ _ _ h with h' | ⟨ow', u', b', ho, hm, hl⟩
          · exact Or.inl h'
          · exact absurd ho (by simp)
    | otherLog =>
      simp only [scanReceiptLogs] at h
      rcases ih _ _ _ h with h' | ⟨ow', u', b', ho, hm, hl⟩
      · exact Or.inl h'
      · exact Or.inr ⟨ow', u', b', ho, List.mem_cons_of_mem _ hm, hl⟩

/-- With an unresolved owner and no `XBURNClaimed` log, the scan ends in the
unverified status exactly when some `EmergencyEnd` log is present. -/
theorem scan_none_no_claim (logs : List MinterLog) :
    ∀ s a, s ≠ Status.claimed → hasXburnClaimed logs = false →
      (scanReceiptLogs none s a logs).1 =
        (if hasEmergencyEnd logs then
          Status.emergency_withdrawn_owner_unverified else s) := by
  induction logs with
  | nil => intro s a _ _; rfl
  | cons l rest ih =>
    intro s a h hc
    cases l with
    | xburnClaimedLog u b bo => simp [hasXburnClaimed] at hc
    | emergencyEndLog u b =>
      have hc' : hasXburnClaimed rest = false := by
        simpa [hasXburnClaimed] using hc
      simp only [scanReceiptLogs, if_pos h]
      rw [ih _ _ (by decide) hc']
      have h1 : hasEmergencyEnd (MinterLog.emergencyEndLog u b :: rest) = true := by
        simp [hasEmergencyEnd]
      rw [h1]
      split <;> rfl
    | otherLog =>
      have hc' : hasXburnClaimed rest = false := by
        simpa [hasXburnClaimed] using hc
      simp only [scanReceiptLogs]
      rw [ih _ _ h hc']
      have h1 : hasEmergencyEnd (MinterLog.otherLog :: rest) = hasEmergencyEnd rest := by
        simp [hasEmergencyEnd]
      rw [h1]

/-- With a resolved owner, `EmergencyEnd` logs for other users and no
`XBURNClaimed` log leave the scan's accumulator untouched. -/
theorem scan_some_mismatch (logs : List MinterLog) :
    ∀ ow s a, hasXburnClaimed logs = false →
      (∀ u b, MinterLog.emergencyEndLog u b ∈ logs → lowerStr u ≠ lowerStr ow) →
      scanReceiptLogs (some ow) s a logs = (s, a) := by
  induction logs with
  | nil => intro ow s a _ _; rfl
  | cons l rest ih =>
    intro ow s a hc hm
    cases l with
    | xburnClaimedLog u b bo => simp [hasXburnClaimed] at hc
    | emergencyEndLog u b =>
      have hne := hm u b (List.mem_cons_self _ _)
      have hc' : hasXburnClaimed rest = false := by
        simpa [hasXburnClaimed] using hc
      simp only [scanReceiptLogs, if_neg hne]
      exact ih _ _ _ hc' (fun u' b' hmem => hm u' b' (List.mem_cons_of_mem _ hmem))
    | otherLog =>
      have hc' : hasXburnClaimed rest = false := by
        simpa [hasXburnClaimed] using hc
      exact ih _ _ _ hc' (fun u' b' hmem => hm u' b' (List.mem_cons_of_mem _ hmem))

/-- C3 counterexample: with both companion events present in the transaction
and the owner-verified `EmergencyEnd` first in the receipt's log order, the
close-out attributes the emergency event and breaks — the normal claim event
present later is not preferred. -/
theorem c3_emergency_first_beats_claim :
    lockClaimedOutcome
      (some [MinterLog.emergencyEndLog "0xa" 5,
             MinterLog.xburnClaimedLog "0xa" 3 4])
      (some "0xa") = (Status.emergency_withdrawn, 5) ∧
    Status.emergency_withdrawn ≠ Status.claimed := by
  constructor <;> decide

/-- C3 (amended): the close-out scans the transaction's minter logs in order
and stops at the first normal claim event or the first owner-verified
emergency event, so the normal claim event is preferred whenever no
owner-verified emergency event precedes it (in particular always over
unverified emergency events); `emergency_withdrawn` is attributed only when
the emergency user equals the position's owner at that block; an unresolved
owner with only emergency events yields
`emergency_withdrawn_owner_unverified`; owner-resolved emergency events for a
different user are ignored; and when no companion event is attributed the
status is `claimed_unknown_type` with zero amount. -/
theorem c3_close_out (logs : List MinterLog) (ow : String) :
    (∀ rest u b bo o,
      lockClaimedOutcome (some (MinterLog.xburnClaimedLog u b bo :: rest)) o
        = (Status.claimed, b + bo)) ∧
    ((lockClaimedOutcome (some logs) (some ow)).1 = Status.emergency_withdrawn →
      ∃ u b, MinterLog.emergencyEndLog u b ∈ logs ∧ lowerStr u = lowerStr ow) ∧
    ((lockClaimedOutcome (some logs) none).1 ≠ Status.emergency_withdrawn) ∧
    (hasXburnClaimed logs = true →
      (lockClaimedOutcome (some logs) none).1 = Status.claimed) ∧
    (hasXburnClaimed logs = false →
      (lockClaimedOutcome (some logs) none).1 =
        (if hasEmergencyEnd logs then
          Status.emergency_withdrawn_owner_unverified
         else Status.claimed_unknown_type)) ∧
    (hasXburnClaimed logs = false →
      (∀ u b, MinterLog.emergencyEndLog u b ∈ logs → lowerStr u ≠ lowerStr ow) →
      lockClaimedOutcome (some logs) (some ow) = (Status.claimed_unknown_type, 0)) ∧
    (∀ o, lockClaimedOutcome none o = (Status.claimed_unknown_type, 0)) := by
  refine ⟨fun rest u b bo o => rfl, ?_, ?_, ?_, ?_, ?_, fun o => rfl⟩
  · intro h
    rcases scan_emergency_verified logs (some ow) _ _ h with h' | ⟨ow', u, b, ho, hm, hl⟩
    · exact absurd h' (by decide)
    · obtain rfl : ow = ow' := by injection ho
      exact ⟨u, b, hm, hl⟩
  · intro h
    rcases scan_emergency_verified logs none _ _ h with h' | ⟨ow', u, b, ho, _, _⟩
    · exact absurd h' (by decide)
    · exact absurd ho (by simp)
  · intro hc
    exact scan_none_claim_wins logs _ _ (by decide) hc
  · intro hc
    exact scan_none_no_claim logs _ _ (by decide) hc
  · intro hc hm
    exact scan_some_mismatch logs ow _ _ hc hm

/-- Closed instance of `c3_close_out`: an unresolved owner with a single
emergency event yields the unverified status. -/
theorem c3_close_out_witness :
    hasXburnClaimed [MinterLog.emergencyEndLog "0xb" 5] = false ∧
    (lockClaimedOutcome (some [MinterLog.emergencyEndLog "0xb" 5]) none).1 =
      Status.emergency_withdrawn_owner_unverified :=
  ⟨by decide, by
    rw [(c3_close_out [MinterLog.emergencyEndLog "0xb" 5] "0xb").2.2.2.2.1
      (by decide)]
    decide⟩

/-! ## C4: minter-level claim events -/

/-- The option-valued minimum fold can only return its seed or a list
element. -/
theorem foldl_pick_mem (l : List BurnPosition) :
    ∀ (acc : Option BurnPosition) (q : BurnPosition),
      l.foldl (fun acc p =>
        match acc with
        | none => some p
        | some r => if p.maturityTimestamp < r.maturityTimestamp then some p
            else some r) acc = some q →
      acc = some q ∨ q ∈ l := by
  induction l with
  | nil => intro acc q h; exact Or.inl h
  | cons p rest ih =>
    intro acc q h
    simp only [List.foldl_cons] at h
    rcases ih _ q h with h' | h'
    · cases acc with
      | none =>
        right
        simp only [] at h'
        injection h' with h''
        rw [← h'']
        exact List.mem_cons_self _ _
      | some r =>
        simp only [] at h'
        by_cases hlt : p.maturityTimestamp < r.maturityTimestamp
        · rw [if_pos hlt] at h'
          right
          injection h' with h''
          rw [← h'']
          exact List.mem_cons_self _ _
        · rw [if_neg hlt] at h'
          exact Or.inl h'
    · exact Or.inr (List.mem_cons_of_mem _ h')

/-- When `earliestLocked` selects a position, it is a locked row of the table
for that user and chain. -/
theorem earliestLocked_spec (ps : List BurnPosition) (user : String) (cid : Nat)
    (sel : BurnPosition) (h : earliestLocked ps user cid = some sel) :
    sel ∈ ps ∧ sel.chainId = cid ∧ sel.status = Status.locked ∧
      sel.userAddress = lowerStr user := by
  unfold earliestLocked at h
  rcases foldl_pick_mem _ none sel h with h' | h'
  · exact absurd h' (by simp)
  · have hmem := List.mem_filter.mp h'
    have hp := hmem.2
    simp only [Bool.and_eq_true, beq_iff_eq] at hp
    exact ⟨hmem.1, hp.1.2, hp.2, hp.1.1⟩

/-- C4 counterexample: delivering a minter-level `XBURNClaimed` event through
`handleXburnClaimedEvent` over a store holding one locked position for that
user inserts no BurnEvent at all and mutates the position to `claimed`. -/
theorem c4_minter_claim_mutates :
    (handleXburnClaimedEvent ⟨[], [samplePosition]⟩ sampleMinterClaim 900).events
      = [] ∧
    (handleXburnClaimedEvent ⟨[], [samplePosition]⟩ sampleMinterClaim 900).positions
      ≠ [samplePosition] ∧
    ∃ p ∈ (handleXburnClaimedEvent ⟨[], [samplePosition]⟩
        sampleMinterClaim 900).positions, p.status = Status.claimed := by
  refine ⟨by decide, by decide, by decide⟩

/-- C4 (amended): the `indexer.ts` minter-level claim listener inserts an
audit BurnEvent only and leaves every BurnPosition row unchanged; the
`eventProcessor.ts` handler instead inserts no BurnEvent and, when the user
has a locked position on the chain, closes the earliest-maturity one as
`claimed` (touching nothing when no such position exists). -/
theorem c4_minter_claim (st : DbState) (e : MinterClaimEvent) (now : Nat) :
    (minterClaimIndexer st e).positions = st.positions ∧
    ((minterClaimIndexer st e).events = st.events ∨
      ∃ row, (minterClaimIndexer st e).events = st.events ++ [row] ∧
        row.eventType = "XBURNClaimed" ∧ row.nftId = none) ∧
    (handleXburnClaimedEvent st e now).events = st.events ∧
    ((∀ p ∈ st.positions, ¬(p.userAddress = lowerStr e.user ∧
        p.chainId = e.chainId ∧ p.status = Status.locked)) →
      handleXburnClaimedEvent st e now = st) ∧
    (∀ sel, earliestLocked st.positions e.user e.chainId = some sel →
      sel ∈ st.positions ∧ sel.status = Status.locked ∧
      ∃ p ∈ (handleXburnClaimedEvent st e now).positions,
        p.chainId = sel.chainId ∧ p.nftId = sel.nftId ∧
        p.status = Status.claimed ∧
        p.claimedXburnAmount = some (e.baseAmount + e.bonusAmount)) := by
  refine ⟨rfl, ?_, ?_, ?_, ?_⟩
  · simp only [minterClaimIndexer, insertEventIfAbsent]
    split
    · exact Or.inl rfl
    · exact Or.inr ⟨_, rfl, rfl, rfl⟩
  · unfold handleXburnClaimedEvent
    cases h : earliestLocked st.positions e.user e.chainId with
    | none => rfl
    | some sel => rfl
  · intro hnone
    have hfil : st.positions.filter (fun p =>
        p.userAddress == lowerStr e.user && p.chainId == e.chainId
          && p.status == Status.locked) = [] := by
      rw [List.filter_eq_nil_iff]
      intro p hp
      have := hnone p hp
      simp only [Bool.and_eq_true, beq_iff_eq, not_and_or]
      tauto
    have hsel : earliestLocked st.positions e.user e.chainId = none := by
      unfold earliestLocked
      rw [hfil]
      rfl
    unfold handleXburnClaimedEvent
    rw [hsel]
  · intro sel hsel
    obtain ⟨hmem, hchain, hlocked, _⟩ :=
      earliestLocked_spec st.positions e.user e.chainId sel hsel
    refine ⟨hmem, hlocked, ?_⟩
    simp only [handleXburnClaimedEvent, hsel]
    refine ⟨_, List.mem_map_of_mem _ hmem, ?_⟩
    unfold claimUpd
    rw [if_pos (by simp [hchain])]
    exact ⟨rfl, rfl, rfl, rfl⟩

/-- Closed instance of `c4_minter_claim`: over an empty store the
`eventProcessor.ts` handler is the identity. -/
theorem c4_minter_claim_witness :
    handleXburnClaimedEvent ⟨[], []⟩ sampleMinterClaim 900 = ⟨[], []⟩ :=
  (c4_minter_claim ⟨[], []⟩ sampleMinterClaim 900).2.2.2.1 (by simp)

/-! ## C5: re-delivering an identical mint event -/

/-- `ON CONFLICT DO NOTHING` inserts are idempotent. -/
theorem insertEventIfAbsent_idem (es : List BurnEvent) (row : BurnEvent) :
    insertEventIfAbsent (insertEventIfAbsent es row) row
      = insertEventIfAbsent es row := by
  by_cases h : (es.any fun e => e.transactionHash == row.transactionHash
      && e.eventType == row.eventType) = true
  · simp only [insertEventIfAbsent, if_pos h]
  · simp only [insertEventIfAbsent, if_neg h]
    rw [if_pos]
    rw [List.any_append]
    simp

/-- `hasKey` distributes over append. -/
theorem hasKey_append (ps qs : List BurnPosition) (cid nid : Nat) :
    hasKey (ps ++ qs) cid nid = (hasKey ps cid nid || hasKey qs cid nid) := by
  simp [hasKey, List.any_append]

/-- Components are enough to identify a store state. -/
theorem DbState.eq_of (a b : DbState) (h1 : a.events = b.events)
    (h2 : a.positions = b.positions) : a = b := by
  cases a; cases b; cases h1; cases h2; rfl

/-- `mintIndexer`'s positions component in closed form. -/
theorem mintIndexer_positions (st : DbState) (e : MintEvent)
    (amp reward n : Nat) :
    (mintIndexer st e amp reward n).positions =
      if hasKey st.positions e.chainId e.tokenId then st.positions
      else st.positions ++ [mintRowIdx e amp reward n] := rfl

/-- `mintIndexer`'s events component in closed form. -/
theorem mintIndexer_events (st : DbState) (e : MintEvent)
    (amp reward n : Nat) :
    (mintIndexer st e amp reward n).events =
      insertEventIfAbsent st.events (mintAuditRow e) := rfl

/-- `handleBurnNftMintedEvent` on an empty store in closed form. -/
theorem mintEP_empty (e : MintEvent) (n : Nat) :
    handleBurnNftMintedEvent ⟨[], []⟩ e n = ⟨[], [mintRowEP e n]⟩ := by
  simp [handleBurnNftMintedEvent, hasKey, mintRowEP, mintNewRow, ampUpd,
    nftPatch]

/-- Re-delivering the identical mint event in closed form: only `created_at`
survives from the first delivery; `updated_at` is the second delivery's
clock. -/
theorem mintEP_twice (e : MintEvent) (n1 n2 : Nat) :
    twiceMintEP e n1 n2 = ⟨[], [{ mintRowEP e n2 with createdAt := n1 }]⟩ := by
  rw [twiceMintEP, mintEP_empty]
  simp [handleBurnNftMintedEvent, hasKey, mintRowEP, mintUpd, ampUpd, nftPatch]

/-- C5 counterexample: delivering the identical mint event twice through
`handleBurnNftMintedEvent` (at clock times 10 and 20) yields exactly one row
for the key, but the row is not byte-identical after the second delivery —
its `updated_at` column was overwritten by the upsert's `NOW()`. -/
theorem c5_redelivery_not_byte_identical :
    (twiceMintEP sampleMint 10 20).positions ≠
      (handleBurnNftMintedEvent ⟨[], []⟩ sampleMint 10).positions ∧
    ((twiceMintEP sampleMint 10 20).positions.filter
      (fun p => p.chainId == sampleMint.chainId
        && p.nftId == sampleMint.tokenId)).length = 1 := by
  refine ⟨by decide, by decide⟩

/-- C5 (amended): delivering an identical mint event twice yields exactly one
BurnPosition row keyed by (chain id, NFT id); through `eventProcessor.ts` the
row after the second delivery is identical to its state after the first in
every column except the `updated_at` bookkeeping column (which the upsert
overwrites with `NOW()`); through the `indexer.ts` DO-NOTHING path the second
delivery is a no-op, so the row is fully byte-identical. -/
theorem c5_mint_redelivery (e : MintEvent) (n1 n2 : Nat) (st : DbState)
    (amp reward n3 n4 : Nat) :
    ((twiceMintEP e n1 n2).positions.filter
      (fun p => p.chainId == e.chainId && p.nftId == e.tokenId)).length = 1 ∧
    (twiceMintEP e n1 n2).positions.map stripUpdatedAt =
      (handleBurnNftMintedEvent ⟨[], []⟩ e n1).positions.map stripUpdatedAt ∧
    mintIndexer (mintIndexer st e amp reward n3) e amp reward n4 =
      mintIndexer st e amp reward n3 := by
  refine ⟨?_, ?_, ?_⟩
  · rw [mintEP_twice]
    simp [List.filter, mintRowEP]
  · rw [mintEP_twice, mintEP_empty]
    simp [stripUpdatedAt, mintRowEP]
  · apply DbState.eq_of
    · rw [mintIndexer_events, mintIndexer_events, insertEventIfAbsent_idem]
    · simp only [mintIndexer_positions]
      by_cases hk : hasKey st.positions e.chainId e.tokenId = true
      · rw [if_pos hk, if_pos hk]
      · have hk2 : hasKey (st.positions ++ [mintRowIdx e amp reward n3])
            e.chainId e.tokenId = true := by
          rw [hasKey_append]
          have h1 : hasKey [mintRowIdx e amp reward n3] e.chainId e.tokenId
              = true := by
            simp [hasKey, mintRowIdx]
          rw [h1, Bool.or_true]
        rw [if_neg hk, if_pos hk2]

/-! ## C6: one-way status transitions -/

/-- `mintUpd` never touches the natural key. -/
theorem mintUpd_key (e : MintEvent) (now : Nat) (p : BurnPosition) :
    pkey (mintUpd e now p) = pkey p := by
  unfold mintUpd; split <;> rfl

/-- `mintUpd` never touches the status column. -/
theorem mintUpd_status (e : MintEvent) (now : Nat) (p : BurnPosition) :
    (mintUpd e now p).status = p.status := by
  unfold mintUpd; split <;> rfl

/-- `ampUpd` never touches the natural key. -/
theorem ampUpd_key (e : MintEvent) (now : Nat) (p : BurnPosition) :
    pkey (ampUpd e now p) = pkey p := by
  unfold ampUpd; split <;> rfl

/-- `ampUpd` never touches the status column. -/
theorem ampUpd_status (e : MintEvent) (now : Nat) (p : BurnPosition) :
    (ampUpd e now p).status = p.status := by
  unfold ampUpd; split <;> rfl

/-- `claimUpd` never touches the natural key. -/
theorem claimUpd_key (e : MinterClaimEvent) (selNft now : Nat)
    (p : BurnPosition) : pkey (claimUpd e selNft now p) = pkey p := by
  unfold claimUpd; split <;> rfl

/-- `claimUpd` leaves the status alone or writes the terminal `claimed`. -/
theorem claimUpd_status (e : MinterClaimEvent) (selNft now : Nat)
    (p : BurnPosition) :
    (claimUpd e selNft now p).status = p.status ∨
      (claimUpd e selNft now p).status ≠ Status.locked := by
  unfold claimUpd; split
  · exact Or.inr (fun h => Status.noConfusion h)
  · exact Or.inl rfl

/-- `lockUpd` never touches the natural key. -/
theorem lockUpd_key (e : LockClaimedEvent) (outcome : Status × Nat) (now : Nat)
    (p : BurnPosition) : pkey (lockUpd e outcome now p) = pkey p := by
  unfold lockUpd; split <;> rfl

/-- `lockUpd` leaves the status alone or writes the close-out outcome, which
is never `locked`. -/
theorem lockUpd_status (e : LockClaimedEvent) (outcome : Status × Nat)
    (now : Nat) (ho : outcome.1 ≠ Status.locked) (p : BurnPosition) :
    (lockUpd e outcome now p).status = p.status ∨
      (lockUpd e outcome now p).status ≠ Status.locked := by
  unfold lockUpd; split
  · exact Or.inr ho
  · exact Or.inl rfl

/-- The close-out outcome status is one of the four terminal statuses, never
`locked`. -/
theorem lockClaimedOutcome_ne_locked (logs : Option (List MinterLog))
    (o : Option String) : (lockClaimedOutcome logs o).1 ≠ Status.locked := by
  cases logs with
  | none => exact fun h => Status.noConfusion h
  | some l =>
    exact scan_status_ne_locked l o Status.claimed_unknown_type 0
      (fun h => Status.noConfusion h)

/-- Key-preserving row updates preserve key uniqueness. -/
theorem keysUnique_map (f : BurnPosition → BurnPosition)
    (hkey : ∀ p, pkey (f p) = pkey p) (ps : List BurnPosition)
    (h : KeysUnique ps) : KeysUnique (ps.map f) := by
  unfold KeysUnique at *
  rw [List.pairwise_map]
  exact h.imp (fun hab => by rw [hkey, hkey]; exact hab)

/-- Appending a fresh key preserves key uniqueness. -/
theorem keysUnique_append_one (ps : List BurnPosition) (x : BurnPosition)
    (h : KeysUnique ps) (hx : ∀ p ∈ ps, pkey p ≠ pkey x) :
    KeysUnique (ps ++ [x]) := by
  unfold KeysUnique at *
  rw [List.pairwise_append]
  refine ⟨h, by simp, ?_⟩
  intro a ha b hb
  rw [List.mem_singleton] at hb
  rw [hb]
  exact hx a ha

/-- Key-preserving, never-unlocking row updates preserve the existence of a
terminal row at a key. -/
theorem terminal_map (f : BurnPosition → BurnPosition)
    (hkey : ∀ p, pkey (f p) = pkey p)
    (hstat : ∀ p, (f p).status = p.status ∨ (f p).status ≠ Status.locked)
    (ps : List BurnPosition) (k : Nat × Nat)
    (ht : ∃ p ∈ ps, pkey p = k ∧ p.status ≠ Status.locked) :
    ∃ p ∈ ps.map f, pkey p = k ∧ p.status ≠ Status.locked := by
  obtain ⟨p, hp, hk, hs⟩ := ht
  refine ⟨f p, List.mem_map_of_mem f hp, by rw [hkey p]; exact hk, ?_⟩
  rcases hstat p with h | h
  · rw [h]; exact hs
  · exact h

/-- Appending rows preserves the existence of a terminal row at a key. -/
theorem terminal_append (ps qs : List BurnPosition) (k : Nat × Nat)
    (ht : ∃ p ∈ ps, pkey p = k ∧ p.status ≠ Status.locked) :
    ∃ p ∈ ps ++ qs, pkey p = k ∧ p.status ≠ Status.locked := by
  obtain ⟨p, hp, h2⟩ := ht
  exact ⟨p, List.mem_append_left _ hp, h2⟩

/-- If the `any`-based key probe fails, no row has that key. -/
theorem hasKey_false_not_mem (ps : List BurnPosition) (cid nid : Nat)
    (h : ¬ hasKey ps cid nid = true) :
    ∀ p ∈ ps, pkey p ≠ (cid, nid) := by
  intro p hp heq
  apply h
  unfold hasKey
  rw [List.any_eq_true]
  refine ⟨p, hp, ?_⟩
  have h1 : p.chainId = cid := congrArg Prod.fst heq
  have h2 : p.nftId = nid := congrArg Prod.snd heq
  simp [h1, h2]

/-- With unique keys, a terminal row at a key forces every row at that key to
be terminal. -/
theorem all_at_key (ps : List BurnPosition) (k : Nat × Nat)
    (hu : KeysUnique ps)
    (ht : ∃ p ∈ ps, pkey p = k ∧ p.status ≠ Status.locked) :
    ∀ q ∈ ps, pkey q = k → q.status ≠ Status.locked := by
  obtain ⟨p, hp, hpk, hps⟩ := ht
  intro q hq hqk
  by_cases hqp : q = p
  · rw [hqp]; exact hps
  · exfalso
    have hsym : Symmetric (fun a b : BurnPosition => pkey a ≠ pkey b) :=
      fun a b h e => h e.symm
    exact (List.Pairwise.forall hsym hu) hq hp hqp (hqk.trans hpk.symm)

/-- `handleBurnNftMintedEvent`'s positions component in closed form. -/
theorem mintEP_positions (st : DbState) (e : MintEvent) (now : Nat) :
    (handleBurnNftMintedEvent st e now).positions =
      (if hasKey st.positions e.chainId e.tokenId then
        st.positions.map (mintUpd e now)
      else st.positions ++ [mintNewRow e now]).map (ampUpd e now) := rfl

/-- One event-handler operation preserves key uniqueness and the presence of
a terminal row at any key that already has one. -/
theorem inv_step (st : DbState) (op : Op) (k : Nat × Nat)
    (hu : KeysUnique st.positions)
    (ht : ∃ p ∈ st.positions, pkey p = k ∧ p.status ≠ Status.locked) :
    KeysUnique (applyOp st op).positions ∧
      ∃ p ∈ (applyOp st op).positions, pkey p = k ∧ p.status ≠ Status.locked := by
  cases op with
  | mintEP e now =>
    have hop : applyOp st (Op.mintEP e now) = handleBurnNftMintedEvent st e now := rfl
    rw [hop, mintEP_positions]
    by_cases hk : hasKey st.positions e.chainId e.tokenId = true
    · rw [if_pos hk]
      exact ⟨keysUnique_map _ (ampUpd_key e now) _
          (keysUnique_map _ (mintUpd_key e now) _ hu),
        terminal_map _ (ampUpd_key e now)
          (fun p => Or.inl (ampUpd_status e now p)) _ k
          (terminal_map _ (mintUpd_key e now)
            (fun p => Or.inl (mintUpd_status e now p)) _ k ht)⟩
    · rw [if_neg hk]
      refine ⟨keysUnique_map _ (ampUpd_key e now) _ ?_,
        terminal_map _ (ampUpd_key e now)
          (fun p => Or.inl (ampUpd_status e now p)) _ k
          (terminal_append _ _ k ht)⟩
      exact keysUnique_append_one _ _ hu
        (fun p hp => hasKey_false_not_mem st.positions e.chainId e.tokenId hk p hp)
  | mintIdx e amp reward now =>
    have hop : applyOp st (Op.mintIdx e amp reward now)
        = mintIndexer st e amp reward now := rfl
    rw [hop, mintIndexer_positions]
    by_cases hk : hasKey st.positions e.chainId e.tokenId = true
    · rw [if_pos hk]
      exact ⟨hu, ht⟩
    · rw [if_neg hk]
      exact ⟨keysUnique_append_one _ _ hu
          (fun p hp => hasKey_false_not_mem st.positions e.chainId e.tokenId hk p hp),
        terminal_append _ _ k ht⟩
  | minterClaimEP e now =>
    have hop : applyOp st (Op.minterClaimEP e now)
        = handleXburnClaimedEvent st e now := rfl
    rw [hop]
    cases hsel : earliestLocked st.positions e.user e.chainId with
    | none =>
      simp only [handleXburnClaimedEvent, hsel]
      exact ⟨hu, ht⟩
    | some sel =>
      simp only [handleXburnClaimedEvent, hsel]
      exact ⟨keysUnique_map _ (claimUpd_key e sel.nftId now) _ hu,
        terminal_map _ (claimUpd_key e sel.nftId now)
          (claimUpd_status e sel.nftId now) _ k ht⟩
  | minterClaimIdx e => exact ⟨hu, ht⟩
  | lockClaimed e logs owner now =>
    exact ⟨keysUnique_map _ (lockUpd_key e _ now) _ hu,
      terminal_map _ (lockUpd_key e _ now)
        (lockUpd_status e _ now (lockClaimedOutcome_ne_locked logs owner)) _ k ht⟩

/-- C6: under every sequence of event-handler operations, a position whose
status is one of the terminal statuses (claimed, emergency_withdrawn,
emergency_withdrawn_owner_unverified, claimed_unknown_type — anything but
locked) is never set back to `locked`: every row at its key stays
non-locked. -/
theorem c6_status_one_way (ops : List Op) (st : DbState) (k : Nat × Nat)
    (hu : KeysUnique st.positions)
    (ht : ∃ p ∈ st.positions, pkey p = k ∧ p.status ≠ Status.locked) :
    ∀ q ∈ (applyOps st ops).positions, pkey q = k →
      q.status ≠ Status.locked := by
  have main : ∀ (ops' : List Op) (st' : DbState), KeysUnique st'.positions →
      (∃ p ∈ st'.positions, pkey p = k ∧ p.status ≠ Status.locked) →
      KeysUnique (applyOps st' ops').positions ∧
        ∃ p ∈ (applyOps st' ops').positions,
          pkey p = k ∧ p.status ≠ Status.locked := by
    intro ops'
    induction ops' with
    | nil => intro st' h1 h2; exact ⟨h1, h2⟩
    | cons op rest ih =>
      intro st' h1 h2
      have h3 := inv_step st' op k h1 h2
      exact ih (applyOp st' op) h3.1 h3.2
  exact all_at_key _ k (main ops st hu ht).1 (main ops st hu ht).2

/-- Closed instance of `c6_status_one_way`: re-delivering the mint event over
the already-claimed position leaves it non-locked. -/
theorem c6_status_one_way_witness :
    mintedOverClaimed.status ≠ Status.locked :=
  c6_status_one_way [Op.mintEP sampleMint 5] ⟨[], [claimedSample]⟩ (1, 7)
    (by decide) ⟨claimedSample, by decide, by decide, by decide⟩
    mintedOverClaimed (by decide) (by decide)

end XBurn
